import Mathlib

set_option maxHeartbeats 1000000

namespace MemAssist

/-!
Shallow embedding of the memory-assistant repository
(src/database.py, src/memory_mcp.py, src/ai_engine.py, src/main.py)
and proofs about its consolidation pipeline and memory API.

The store is SQLite (database.py).  A row of the `memories` table is a
`MemoryRecord`; timestamps are abstracted to `Nat` (only their ordering and
immutability matter).  The record list is kept in the order in which the
code reads it back (`get_memories` orders by `created_at DESC`); none of the
properties proved below depend on that order, and all mutations below are
order-independent, so the list order is carried through unchanged.

The external LLM (Ollama) is abstracted as an `Oracle`: one function per
distinct call site of `AIEngine`, each taking exactly the data that the code
interpolates into the corresponding prompt.  A transport failure, timeout,
non-200 status or unparseable body of `_call_llm_json` makes the code use
`{}`, which every call site treats the same as an empty list, so the failure
of a JSON call is the oracle returning `[]`; a failure of `_call_llm_text`
is the oracle returning `""` (ai_engine.py lines 326-355).

`compress_memories_stream` (ai_engine.py lines 183-324) is an async
generator interleaving yielded progress events with store mutations issued
through `memory_mcp_server.call_tool`.  It is embedded as a function from
the snapshot read at line 189 to a trace: a list of `Action`s, each either
`emit` (a yield) or `mutate` (a store call), in program order.  The final
store is obtained by folding the mutations of the trace over the initial
store; the event sequence is the sublist of emitted events.
-/

/-- A row of the memories table (database.py lines 28-35): id assigned by
AUTOINCREMENT, category and content text, created_at defaulted at insertion
and never touched by UPDATE (database.py lines 77-82). -/
structure MemoryRecord where
  id : Nat
  category : String
  content : String
  created_at : Nat
deriving Repr, DecidableEq

/-- The memories table plus the AUTOINCREMENT counter for fresh ids. -/
structure Store where
  records : List MemoryRecord
  nextId : Nat
deriving Repr, DecidableEq

/-- database.py add_memory (lines 41-48): INSERT with a fresh id; created_at
takes the current time (CURRENT_TIMESTAMP default of the schema). -/
def add_memory (s : Store) (category content : String) (now : Nat) : Store :=
  { records := s.records ++ [⟨s.nextId, category, content, now⟩],
    nextId := s.nextId + 1 }

/-- database.py delete_memory (lines 68-73): DELETE WHERE id = ?; deleting a
missing id is a no-op. -/
def delete_memory (s : Store) (memory_id : Nat) : Store :=
  { s with records := s.records.filter (fun r => r.id != memory_id) }

/-- database.py update_memory (lines 77-82): UPDATE content and category
WHERE id = ?; created_at is not in the SET list. -/
def update_memory (s : Store) (memory_id : Nat) (content category : String) : Store :=
  { s with records := s.records.map (fun r =>
      if r.id = memory_id then { r with content := content, category := category } else r) }

/-- database.py delete_all_memories (lines 86-93): DELETE all rows; the
commented-out sqlite_sequence reset is not executed, so nextId is kept. -/
def delete_all_memories (s : Store) : Store :=
  { s with records := [] }

/-- main.py create_memory (lines 84-87): the POST /api/memories handler
calls add_memory directly; there is no check on item.category. -/
def create_memory (s : Store) (category content : String) (now : Nat) : Store :=
  add_memory s category content now

/-- Arguments dictionary of a memory_mcp.py tool call; absent keys are none. -/
structure ToolArgs where
  category : Option String := none
  content : Option String := none
  id : Option Nat := none
deriving Repr, DecidableEq

/-- memory_mcp.py MemoryMCPServer.call_tool (lines 45-55): dispatch on the
tool name to the database functions; no category validation on any branch;
a missing argument key or unknown tool raises. -/
def call_tool (s : Store) (now : Nat) (name : String) (arguments : ToolArgs) :
    Except String Store :=
  if name = "add_memory" then
    match arguments.category, arguments.content with
    | some c, some t => Except.ok (add_memory s c t now)
    | _, _ => Except.error "KeyError"
  else if name = "delete_memory" then
    match arguments.id with
    | some i => Except.ok (delete_memory s i)
    | none => Except.error "KeyError"
  else if name = "update_memory" then
    match arguments.id, arguments.content, arguments.category with
    | some i, some t, some c => Except.ok (update_memory s i t c)
    | _, _, _ => Except.error "KeyError"
  else if name = "delete_all" then Except.ok (delete_all_memories s)
  else Except.error "Unknown tool"

/-- The four-bucket view built by memory_mcp.py read_resource for the uri
memories://active (lines 16-35). -/
structure ActiveView where
  attributes : List MemoryRecord
  goals : List MemoryRecord
  requests : List MemoryRecord
  memories : List MemoryRecord
deriving Repr, DecidableEq

/-- memory_mcp.py read_resource, memories://active branch (lines 17-35):
iterate the records once, appending each to the bucket chosen by the
if/elif/else chain on its category; everything that is not attribute, goal
or request falls to the memories bucket. -/
def read_resource_active : List MemoryRecord → ActiveView
  | [] => ⟨[], [], [], []⟩
  | m :: rest =>
    let f := read_resource_active rest
    if m.category = "attribute" then { f with attributes := m :: f.attributes }
    else if m.category = "goal" then { f with goals := m :: f.goals }
    else if m.category = "request" then { f with requests := m :: f.requests }
    else { f with memories := m :: f.memories }

/-- memory_mcp.py read_resource called on a store: it only issues a SELECT
(get_memories), so the store comes back unchanged alongside the view. -/
def mcp_read_resource_active (s : Store) : ActiveView × Store :=
  (read_resource_active s.records, s)

/-- One parsed item of the analysis response (ai_engine.py lines 162-164):
item.get may return missing fields, hence the options. -/
structure AnalysisItem where
  category : Option String
  content : Option String
deriving Repr, DecidableEq

/-- The whitelist of ai_engine.py line 167, in source order.  Note that it
contains the string memory and does not contain the string note. -/
def validCategories : List String := ["attribute", "goal", "memory", "request"]

/-- ai_engine.py analyze_and_save, per-item save step (lines 162-169):
save only when both fields are present and truthy (a Python empty string is
falsy) and the category is in the whitelist. -/
def saveItem (s : Store) (now : Nat) (it : AnalysisItem) : Store :=
  match it.category, it.content with
  | some category, some content_str =>
    if category ≠ "" ∧ content_str ≠ "" then
      if category ∈ validCategories then add_memory s category content_str now else s
    else s
  | _, _ => s

/-- ai_engine.py analyze_and_save (lines 144-179), reduced to its store
effect: the transport, status and JSON-parse outcomes collapse to the list
of parsed items (a failure at any earlier stage yields no items and hence
leaves the store untouched); each item is saved by saveItem in order. -/
def analyze_and_save (s : Store) (now : Nat) (items : List AnalysisItem) : Store :=
  items.foldl (fun acc it => saveItem acc now it) s

/-- One entry of the contradiction JSON response (ai_engine.py lines
281-287): only reason and older_id are read by the code. -/
structure Contra where
  reason : String
  older_id : Option Nat
deriving Repr, DecidableEq

/-- The inference collaborator, one function per prompt-building call site
of compress_memories_stream.  similarity gets the (id, content) pairs of
line 210; mergeText the target contents of line 240; contradiction the
(id, content, created_at) triples of line 272; shorten the single content
of line 313.  A failed or empty JSON call is the empty list; a failed text
call is the empty string (ai_engine.py lines 326-355). -/
structure Oracle where
  similarity : List (Nat × String) → List (List Nat)
  mergeText : List String → String
  contradiction : List (Nat × String × Nat) → List Contra
  shorten : String → String

/-- A progress event yielded by compress_memories_stream; one constructor
per yield site, carrying the data interpolated into the message.  The step
field of the yielded JSON line is recovered by Event.step. -/
inductive Event
  | start
  | endNoMemories
  | categoryStart (category : String) (count : Nat)
  | processSimilar
  | actionMerge (contents : List String)
  | resultMerge (merged : String)
  | infoNoSimilar
  | processContradiction
  | actionContradiction (reason : String) (content : String)
  | infoNoContradiction
  | processShorten
  | actionShorten (before after : String)
  | complete
deriving Repr, DecidableEq

/-- The step field of the JSON line each event is serialised to. -/
def Event.step : Event → String
  | .start => "start"
  | .endNoMemories => "end"
  | .categoryStart _ _ => "category_start"
  | .processSimilar => "process"
  | .actionMerge _ => "action"
  | .resultMerge _ => "result"
  | .infoNoSimilar => "info"
  | .processContradiction => "process"
  | .actionContradiction _ _ => "action"
  | .infoNoContradiction => "info"
  | .processShorten => "process"
  | .actionShorten _ _ => "action"
  | .complete => "complete"

/-- A store mutation issued by the pipeline through call_tool. -/
inductive Mutation
  | add (category content : String)
  | delete (id : Nat)
  | update (id : Nat) (content category : String)
deriving Repr, DecidableEq

/-- One step of the generator: either a yield or a store call, in program
order. -/
inductive Action
  | emit (e : Event)
  | mutate (m : Mutation)
deriving Repr, DecidableEq

/-- The event carried by an action, if it is a yield. -/
def Action.eventOf : Action → Option Event
  | .emit e => some e
  | .mutate _ => none

/-- Whether an action is a store call. -/
def Action.isMutate : Action → Bool
  | .emit _ => false
  | .mutate _ => true

/-- ai_engine.py lines 230-259, the body of the loop over one similarity
group: skip groups shorter than two ids; resolve ids against the current
working list; skip when fewer than two targets survive; otherwise yield the
action event, ask for the merged sentence, delete every target from store
and working list, insert the merged record, yield the result event. -/
def mergeGroupStep (o : Oracle) (category : String) (group_ids : List Nat)
    (cat_memories : List MemoryRecord) : List Action × List MemoryRecord :=
  if group_ids.length < 2 then ([], cat_memories)
  else
    let targets := cat_memories.filter (fun m => group_ids.contains m.id)
    if targets.length < 2 then ([], cat_memories)
    else
      let merged_content := o.mergeText (targets.map (fun t => t.content))
      ([Action.emit (Event.actionMerge (targets.map (fun t => t.content)))]
        ++ targets.map (fun t => Action.mutate (Mutation.delete t.id))
        ++ [Action.mutate (Mutation.add category merged_content),
            Action.emit (Event.resultMerge merged_content)],
       targets.foldl (fun cms t => cms.filter (fun m => m.id != t.id)) cat_memories)

/-- ai_engine.py lines 230-259: the loop over all similarity groups,
threading the working list. -/
def mergeLoop (o : Oracle) (category : String) :
    List (List Nat) → List MemoryRecord → List Action × List MemoryRecord
  | [], cms => ([], cms)
  | g :: gs, cms =>
    let p := mergeGroupStep o category g cms
    let q := mergeLoop o category gs p.2
    (p.1 ++ q.1, q.2)

/-- ai_engine.py lines 207-261, phase 1 of one category: emit the process
event, ask for similarity groups; an empty (or failed) response takes the
info branch of line 261, otherwise the merge loop runs. -/
def phase1 (o : Oracle) (category : String) (cms : List MemoryRecord) :
    List Action × List MemoryRecord :=
  let groups := o.similarity (cms.map (fun m => (m.id, m.content)))
  if groups.isEmpty then
    ([Action.emit Event.processSimilar, Action.emit Event.infoNoSimilar], cms)
  else
    let p := mergeLoop o category groups cms
    (Action.emit Event.processSimilar :: p.1, p.2)

/-- ai_engine.py lines 292-299, the body of the loop over one reported
contradiction: a falsy older_id (absent, or 0) is skipped; an older_id not
resolving in the working list is skipped silently; otherwise yield the
action event, delete the record from store and working list. -/
def contraStep (cont : Contra) (cms : List MemoryRecord) :
    List Action × List MemoryRecord :=
  match cont.older_id with
  | none => ([], cms)
  | some older_id =>
    if older_id = 0 then ([], cms)
    else
      match cms.find? (fun m => m.id == older_id) with
      | none => ([], cms)
      | some target =>
        ([Action.emit (Event.actionContradiction cont.reason target.content),
          Action.mutate (Mutation.delete older_id)],
         cms.filter (fun m => m.id != older_id))

/-- ai_engine.py lines 292-299: the loop over all reported contradictions. -/
def contraLoop : List Contra → List MemoryRecord → List Action × List MemoryRecord
  | [], cms => ([], cms)
  | c :: cs, cms =>
    let p := contraStep c cms
    let q := contraLoop cs p.2
    (p.1 ++ q.1, q.2)

/-- ai_engine.py lines 270-301, phase 2 of one category: run only when at
least two records remain; an empty (or failed) response takes the info
branch of line 301, otherwise the contradiction loop runs. -/
def phase2 (o : Oracle) (cms : List MemoryRecord) :
    List Action × List MemoryRecord :=
  if 2 ≤ cms.length then
    let conts := o.contradiction (cms.map (fun m => (m.id, m.content, m.created_at)))
    if conts.isEmpty then
      ([Action.emit Event.processContradiction, Action.emit Event.infoNoContradiction], cms)
    else
      let p := contraLoop conts cms
      (Action.emit Event.processContradiction :: p.1, p.2)
  else ([], cms)

/-- Python str.strip() with no argument (ai_engine.py line 318): remove
leading and trailing whitespace characters. -/
def strip (s : String) : String :=
  ⟨((s.data.dropWhile Char.isWhitespace).reverse.dropWhile Char.isWhitespace).reverse⟩

/-- ai_engine.py lines 307-322, the body of the shortening loop for one
record: consult the oracle only when the content is longer than 15
characters; strip the reply; accept it only when strictly shorter and
different, in which case the action event is yielded and then the update
issued; otherwise nothing is emitted and nothing is mutated. -/
def shortenStep (o : Oracle) (category : String) (m : MemoryRecord) : List Action :=
  if 15 < m.content.length then
    let shortened := strip (o.shorten m.content)
    if shortened.length < m.content.length ∧ shortened ≠ m.content then
      [Action.emit (Event.actionShorten m.content shortened),
       Action.mutate (Mutation.update m.id shortened category)]
    else []
  else []

/-- ai_engine.py lines 306-322, phase 3 of one category: the process event,
then the shortening loop over the remaining working list. -/
def phase3 (o : Oracle) (category : String) (cms : List MemoryRecord) : List Action :=
  Action.emit Event.processShorten :: (cms.map (shortenStep o category)).flatten

/-- ai_engine.py lines 197-322, one iteration of the category loop: filter
the snapshot by category, skip when empty (line 199), otherwise the
category_start event followed by the three phases in order. -/
def processCategory (o : Oracle) (memories : List MemoryRecord) (category : String) :
    List Action :=
  let cat_memories := memories.filter (fun m => m.category == category)
  if cat_memories.isEmpty then []
  else
    let p1 := phase1 o category cat_memories
    let p2 := phase2 o p1.2
    Action.emit (Event.categoryStart category cat_memories.length)
      :: (p1.1 ++ p2.1 ++ phase3 o category p2.2)

/-- The fixed category enumeration of ai_engine.py line 195, in source
order.  The last element is the string memory, not note. -/
def categories : List String := ["attribute", "goal", "request", "memory"]

/-- ai_engine.py compress_memories_stream (lines 183-324) as a trace: the
start event; then, on an empty snapshot, the end event and nothing else
(lines 190-192); otherwise the category loop over the fixed enumeration
followed by the single complete event (line 324). -/
def compress_memories_stream (o : Oracle) (memories : List MemoryRecord) :
    List Action :=
  Action.emit Event.start ::
    (if memories.isEmpty then [Action.emit Event.endNoMemories]
     else (categories.map (processCategory o memories)).flatten
            ++ [Action.emit Event.complete])

/-- Replay one traced mutation against the store, through the call_tool
dispatch targets of memory_mcp.py. -/
def applyMutation (s : Store) (now : Nat) : Mutation → Store
  | .add category content => add_memory s category content now
  | .delete i => delete_memory s i
  | .update i content category => update_memory s i content category

/-- Replay a trace against the store: emits change nothing, mutations are
applied in program order. -/
def applyTrace (now : Nat) : Store → List Action → Store
  | s, [] => s
  | s, .emit _ :: rest => applyTrace now s rest
  | s, .mutate m :: rest => applyTrace now (applyMutation s now m) rest

/-- The event sequence a consumer of the stream observes for one run, the
snapshot being taken from the store (ai_engine.py line 189). -/
def runEvents (o : Oracle) (s : Store) : List Event :=
  (compress_memories_stream o s.records).filterMap Action.eventOf

/-- The store state after one full consolidation run. -/
def runStore (o : Oracle) (s : Store) (now : Nat) : Store :=
  applyTrace now s (compress_memories_stream o s.records)

/-- The oracle that models every inference call failing (timeout, transport
error, non-200, or unparseable body): the JSON helpers yield an effective
empty list, the text helper the empty string (ai_engine.py lines 326-355). -/
def failOracle : Oracle :=
  { similarity := fun _ => [],
    mergeText := fun _ => "",
    contradiction := fun _ => [],
    shorten := fun _ => "" }

/-- An oracle that reports no similarity groups and no contradictions and
proposes the fixed rewrite short for every shortening request. -/
def constShortenOracle : Oracle :=
  { similarity := fun _ => [],
    mergeText := fun _ => "",
    contradiction := fun _ => [],
    shorten := fun _ => "short" }

/-- An oracle whose contradiction response designates id 6 as older_id
(whatever the created_at values say) and proposes nothing else. -/
def flipOracle : Oracle :=
  { similarity := fun _ => [],
    mergeText := fun _ => "",
    contradiction := fun _ => [⟨"conflict", some 6⟩],
    shorten := fun s => s }

/-- A deterministic oracle whose shortening proposal always drops the last
character of the given content. -/
def dropLastOracle : Oracle :=
  { similarity := fun _ => [],
    mergeText := fun _ => "",
    contradiction := fun _ => [],
    shorten := fun s => ⟨s.data.dropLast⟩ }

/-- The attribute names defined on class AIEngine (ai_engine.py lines
14-355): the three instance attributes set in __init__ and the five
methods.  There is no compress_memories among them. -/
def aiEngineAttributes : List String :=
  ["history", "last_interaction_time", "conversation_active",
   "chat", "analyze_and_save", "compress_memories_stream",
   "_call_llm_json", "_call_llm_text"]

/-- Python attribute lookup on the AIEngine instance: a name outside the
attribute table raises AttributeError. -/
def getattrAIEngine (name : String) : Except String String :=
  if name ∈ aiEngineAttributes then Except.ok name
  else Except.error ("AttributeError: AIEngine has no attribute " ++ name)

/-- main.py compress_memories_endpoint (lines 104-107): the handler body
evaluates ai_engine.compress_memories, i.e. performs that attribute lookup
before anything else can happen; the lookup outcome propagates. -/
def compress_memories_endpoint : Except String String :=
  getattrAIEngine "compress_memories"

/-- The category named by an event when it is a category_start. -/
def Event.catStartName : Event → Option String
  | .categoryStart c _ => some c
  | _ => none

/-- The categories named by the category_start events of a run, in order. -/
def catStarts (es : List Event) : List String :=
  es.filterMap Event.catStartName

/-- The category named by an action when it is a category_start yield. -/
def Action.catStart? (a : Action) : Option String :=
  a.eventOf.bind Event.catStartName

/-- True for every action a category's three phases can produce: anything
except the start, end and complete yields (which only the top level of the
generator emits). -/
def Action.notTerminal : Action → Bool
  | .emit .complete => false
  | .emit .endNoMemories => false
  | .emit .start => false
  | _ => true

/-- True for every action the phase bodies (below the category_start yield)
can produce: not terminal and not a category_start yield. -/
def phaseOK (a : Action) : Bool :=
  a.notTerminal && (Action.catStart? a).isNone

/-- A record id is designated for deletion by a contradiction response when
some entry carries it as a truthy (nonzero) older_id. -/
def designatedOlder (conts : List Contra) (i : Nat) : Bool :=
  decide (i ≠ 0) && conts.any (fun c => c.older_id == some i)

/-! ## Theorems -/

/-- The active view is the categorywise partition of the record list. -/
lemma read_resource_active_eq (l : List MemoryRecord) :
    read_resource_active l =
      ⟨l.filter (fun m => m.category == "attribute"),
       l.filter (fun m => m.category == "goal"),
       l.filter (fun m => m.category == "request"),
       l.filter (fun m =>
         !(m.category == "attribute") && !(m.category == "goal")
           && !(m.category == "request"))⟩ := by
  induction l with
  | nil => rfl
  | cons m rest ih =>
    simp only [read_resource_active, ih, List.filter_cons]
    by_cases h1 : m.category = "attribute"
    · simp [h1]
    · by_cases h2 : m.category = "goal"
      · simp [h1, h2]
      · by_cases h3 : m.category = "request"
        · simp [h1, h2, h3]
        · simp [h1, h2, h3]

/-- C10: reading memories://active partitions the stored records into the
four buckets attributes, goals, requests and memories by the if/elif/else
chain on category, so every record lands in exactly one bucket (the bucket
lengths add up to the store size) and any record whose category is not
attribute, goal or request, the literal memory and invalid values included,
lands in the memories catch-all bucket; the call leaves the store
unchanged. -/
theorem c10_active_view_partition (s : Store) :
    (mcp_read_resource_active s).1.attributes
        = s.records.filter (fun m => m.category == "attribute")
    ∧ (mcp_read_resource_active s).1.goals
        = s.records.filter (fun m => m.category == "goal")
    ∧ (mcp_read_resource_active s).1.requests
        = s.records.filter (fun m => m.category == "request")
    ∧ (mcp_read_resource_active s).1.memories
        = s.records.filter (fun m =>
            !(m.category == "attribute") && !(m.category == "goal")
              && !(m.category == "request"))
    ∧ (mcp_read_resource_active s).1.attributes.length
        + (mcp_read_resource_active s).1.goals.length
        + (mcp_read_resource_active s).1.requests.length
        + (mcp_read_resource_active s).1.memories.length = s.records.length
    ∧ (mcp_read_resource_active s).2 = s := by
  have h := read_resource_active_eq s.records
  refine ⟨by simp [mcp_read_resource_active, h], by simp [mcp_read_resource_active, h],
    by simp [mcp_read_resource_active, h], by simp [mcp_read_resource_active, h], ?_, rfl⟩
  simp only [mcp_read_resource_active, h]
  induction s.records with
  | nil => rfl
  | cons m rest ih =>
    simp only [List.filter_cons]
    by_cases h1 : m.category = "attribute"
    · simp [h1]; omega
    · by_cases h2 : m.category = "goal"
      · simp [h1, h2]; omega
      · by_cases h3 : m.category = "request"
        · simp [h1, h2, h3]; omega
        · simp [h1, h2, h3]; omega

/-- C9: the POST /api/memories/compress handler evaluates the attribute
compress_memories on the AIEngine instance, but the class defines only
compress_memories_stream (besides chat, analyze_and_save, the two LLM
helpers and the three instance attributes), so the lookup raises
AttributeError and the endpoint can never return a success result. -/
theorem c9_compress_endpoint_attribute_error :
    compress_memories_endpoint
      = Except.error "AttributeError: AIEngine has no attribute compress_memories"
    ∧ "compress_memories" ∉ aiEngineAttributes
    ∧ "compress_memories_stream" ∈ aiEngineAttributes := by
  refine ⟨rfl, by decide, by decide⟩

/-- C3 counterexample: the HTTP POST /api/memories handler persists a
record with category banana, a value outside every enumeration in the
repository, because main.py lines 84-87 call add_memory without any
category check; so not every add path rejects categories outside
the set of attribute, goal, request, note, and the tool-call path accepts it
just the same. -/
theorem c3_counterexample :
    (create_memory ⟨[], 1⟩ "banana" "hello" 0).records = [⟨1, "banana", "hello", 0⟩]
    ∧ call_tool ⟨[], 1⟩ 0 "add_memory" ⟨some "banana", some "hi", none⟩
        = Except.ok ⟨[⟨1, "banana", "hi", 0⟩], 2⟩
    ∧ "banana" ∉ (["attribute", "goal", "request", "note"] : List String) := by
  refine ⟨rfl, rfl, by decide⟩

/-- C3 amended: only the chat analysis step validates the category, and it
does so against the whitelist attribute, goal, memory, request (which
contains memory and not note); the HTTP memory API and the capability tool
calls persist records under any category string whatsoever without
rejecting anything before the store. -/
theorem c3_amended :
    ("note" ∉ validCategories ∧ "memory" ∈ validCategories)
    ∧ (∀ (s : Store) (c t : String) (now : Nat),
        (create_memory s c t now).records = s.records ++ [⟨s.nextId, c, t, now⟩])
    ∧ (∀ (s : Store) (now : Nat) (c t : String),
        call_tool s now "add_memory" ⟨some c, some t, none⟩
          = Except.ok (add_memory s c t now))
    ∧ (∀ (s : Store) (now : Nat) (c t : String),
        saveItem s now ⟨some c, some t⟩
          = if c ≠ "" ∧ t ≠ "" ∧ c ∈ validCategories then add_memory s c t now else s) := by
  refine ⟨by decide, fun s c t now => rfl, fun s now c t => rfl, fun s now c t => ?_⟩
  show (if c ≠ "" ∧ t ≠ "" then
          if c ∈ validCategories then add_memory s c t now else s
        else s) = _
  by_cases h1 : c ≠ "" ∧ t ≠ ""
  · by_cases h2 : c ∈ validCategories
    · rw [if_pos h1, if_pos h2, if_pos ⟨h1.1, h1.2, h2⟩]
    · rw [if_pos h1, if_neg h2, if_neg (fun h => h2 h.2.2)]
  · rw [if_neg h1, if_neg (fun h => h1 ⟨h.1, h.2.1⟩)]

/-- C1: the claim that a failed inference call never mutates the store is
the stated intent (spec sections 4.2 and 7, and the 15-character guard of
the shortening phase is documented as rejecting degenerate output), but the
code violates it: _call_llm_text returns the empty string on failure
(ai_engine.py lines 343-355) and the acceptance check of line 320 admits
the empty string (it is strictly shorter than any content longer than 15
characters and differs from it), so a run in which every inference call
fails rewrites every long record's content to the empty string instead of
leaving the store unchanged, even though it does complete the category
traversal and reach the terminal complete event. -/
theorem c1_failed_calls_blank_long_records :
    (runStore failOracle ⟨[⟨1, "memory", "aaaaaaaaaaaaaaaa", 5⟩], 2⟩ 9).records
      = [⟨1, "memory", "", 5⟩]
    ∧ runEvents failOracle ⟨[⟨1, "memory", "aaaaaaaaaaaaaaaa", 5⟩], 2⟩
      = [.start, .categoryStart "memory" 1, .processSimilar, .infoNoSimilar,
         .processShorten, .actionShorten "aaaaaaaaaaaaaaaa" "", .complete] := by
  refine ⟨by decide, by decide⟩

/-- C2 counterexample: two goal records with created_at 1 and 2; the
contradiction response designates the NEWER record (id 6, created_at 2) as
older_id, and the pipeline deletes exactly that record, keeping the earlier
one — so the record with the later created_at is absent after the run,
refuting the claim that the pipeline itself always deletes the earlier
record regardless of which id the response designates. -/
theorem c2_counterexample :
    (runStore flipOracle
        ⟨[⟨5, "goal", "wants to learn Spanish", 1⟩,
          ⟨6, "goal", "gave up learning Spanish", 2⟩], 7⟩ 9).records
      = [⟨5, "goal", "wants to learn Spanish", 1⟩]
    ∧ (1 : Nat) < 2 := by
  refine ⟨by decide, by decide⟩

/-- C2 amended: the contradiction phase deletes exactly the records whose
id the inference response designates as a truthy (nonzero) older_id; the
created_at fields are sent to the model in the prompt but the pipeline
performs no created_at comparison of its own — the survivors of the phase
are characterised by record id alone, so newer-wins holds only if the model
chooses to honour it. -/
theorem c2_amended (conts : List Contra) (cms : List MemoryRecord) :
    (contraLoop conts cms).2
      = cms.filter (fun m => !designatedOlder conts m.id) := by
  induction conts generalizing cms with
  | nil =>
    simp only [contraLoop]
    rw [List.filter_eq_self.mpr]
    intro m _
    simp [designatedOlder]
  | cons c cs ih =>
    simp only [contraLoop]
    cases hc : c.older_id with
    | none =>
      simp only [contraStep, hc]
      rw [ih]
      refine List.filter_congr (fun m _ => ?_)
      simp [designatedOlder, hc]
    | some oid =>
      by_cases h0 : oid = 0
      · simp only [contraStep, hc, if_pos h0]
        rw [ih]
        refine List.filter_congr (fun m _ => ?_)
        subst h0
        simp only [designatedOlder, List.any_cons, hc]
        by_cases hm : m.id = 0
        · simp [hm]
        · simp [hm, Ne.symm hm]
      · cases hf : cms.find? (fun m => m.id == oid) with
        | none =>
          simp only [contraStep, hc, if_neg h0, hf]
          rw [ih]
          refine List.filter_congr (fun m hm => ?_)
          have hne : m.id ≠ oid := by
            intro h
            have h2 := List.find?_eq_none.mp hf m hm
            simp [h] at h2
          have hb : (oid == m.id) = false := beq_eq_false_iff_ne.mpr (Ne.symm hne)
          simp [designatedOlder, hc, hb]
        | some target =>
          simp only [contraStep, hc, if_neg h0, hf]
          rw [ih, List.filter_filter]
          refine List.filter_congr (fun m _ => ?_)
          by_cases hm : m.id = oid
          · have hb : (oid == m.id) = true := beq_iff_eq.mpr hm.symm
            simp [designatedOlder, hc, hb, hm, h0, bne]
          · have hb : (oid == m.id) = false := beq_eq_false_iff_ne.mpr (Ne.symm hm)
            have hb2 : (m.id != oid) = true := by
              simp [bne, beq_eq_false_iff_ne.mpr hm]
            simp [designatedOlder, hc, hb, hb2]

/-- C4 counterexample: a store holding exactly one record whose category is
the literal note is visited by no category iteration at all — the run
produces only the start and complete events (no category_start) and leaves
the record untouched, because the enumeration the code iterates is
attribute, goal, request, memory (ai_engine.py line 195): a non-empty note
bucket is not traversed, contradicting the claimed enumeration. -/
theorem c4_counterexample :
    runEvents failOracle ⟨[⟨1, "note", "this memo is fairly long", 0⟩], 2⟩
      = [.start, .complete]
    ∧ (runStore failOracle ⟨[⟨1, "note", "this memo is fairly long", 0⟩], 2⟩ 9).records
      = [⟨1, "note", "this memo is fairly long", 0⟩] := by
  refine ⟨by decide, by decide⟩

/-- C5 counterexample: with one long memory record and an oracle proposing
the rewrite short, the generated trace emits the shortening action event at
position 5 strictly before the corresponding update mutation at position 6
— every action before the mutation is a yield — so the event describing the
store mutation is emitted while that mutation is still pending, refuting
the claim that every mutation-describing event follows its mutation. -/
theorem c5_counterexample :
    compress_memories_stream constShortenOracle [⟨1, "memory", "aaaaaaaaaaaaaaaa", 0⟩]
      = [.emit .start, .emit (.categoryStart "memory" 1), .emit .processSimilar,
         .emit .infoNoSimilar, .emit .processShorten,
         .emit (.actionShorten "aaaaaaaaaaaaaaaa" "short"),
         .mutate (.update 1 "short" "memory"), .emit .complete]
    ∧ ((compress_memories_stream constShortenOracle
          [⟨1, "memory", "aaaaaaaaaaaaaaaa", 0⟩]).take 6).all
        (fun a => !a.isMutate) = true := by
  refine ⟨by decide, by decide⟩

/-- C8 counterexample: with the deterministic drop-last-character oracle
and one record of 17 identical characters, the first run shortens the
content to 16 characters and a second run, with no intervening external
mutation, shortens it again to 15 — the store after one run is not a fixed
point of the pipeline, refuting idempotence for arbitrary deterministic
stubs. -/
theorem c8_counterexample :
    runStore dropLastOracle
        (runStore dropLastOracle ⟨[⟨1, "memory", "aaaaaaaaaaaaaaaaa", 0⟩], 2⟩ 0) 0
      ≠ runStore dropLastOracle ⟨[⟨1, "memory", "aaaaaaaaaaaaaaaaa", 0⟩], 2⟩ 0 := by
  decide

/-- C5 amended: the shape of every mutating step of the three phases.  A
merge step is either empty or the action event, then the deletes and the
insert, then the result event — so the merge result event is emitted after
its mutations; a contradiction step and a shortening step are either empty
or exactly the action event followed by its mutation — so those events are
emitted while the described deletion or update is still pending, and the
claimed mutation-before-event ordering holds for the merge result events
only. -/
theorem c5_amended :
    (∀ (o : Oracle) (cat : String) (g : List Nat) (cms : List MemoryRecord),
        (mergeGroupStep o cat g cms).1 = []
        ∨ ∃ (ts : List MemoryRecord) (merged : String), (mergeGroupStep o cat g cms).1
            = Action.emit (Event.actionMerge (ts.map MemoryRecord.content))
                :: (ts.map (fun t => Action.mutate (Mutation.delete t.id))
                    ++ [Action.mutate (Mutation.add cat merged),
                        Action.emit (Event.resultMerge merged)]))
    ∧ (∀ (cont : Contra) (cms : List MemoryRecord),
        (contraStep cont cms).1 = []
        ∨ ∃ (oid : Nat) (target : MemoryRecord), (contraStep cont cms).1
            = [Action.emit (Event.actionContradiction cont.reason target.content),
               Action.mutate (Mutation.delete oid)])
    ∧ (∀ (o : Oracle) (cat : String) (m : MemoryRecord),
        shortenStep o cat m = []
        ∨ ∃ (sh : String), shortenStep o cat m
            = [Action.emit (Event.actionShorten m.content sh),
               Action.mutate (Mutation.update m.id sh cat)]) := by
  refine ⟨fun o cat g cms => ?_, fun cont cms => ?_, fun o cat m => ?_⟩
  · simp only [mergeGroupStep]
    split
    · exact Or.inl rfl
    · split
      · exact Or.inl rfl
      · exact Or.inr ⟨_, _, rfl⟩
  · simp only [contraStep]
    split
    · exact Or.inl rfl
    · split
      · exact Or.inl rfl
      · split
        · exact Or.inl rfl
        · exact Or.inr ⟨_, _, rfl⟩
  · simp only [shortenStep]
    split
    · split
      · exact Or.inr ⟨_, rfl⟩
      · exact Or.inl rfl
    · exact Or.inl rfl

/-- A phase action is never a terminal yield. -/
lemma phaseOK_notTerminal {a : Action} (h : phaseOK a = true) :
    a.notTerminal = true :=
  (Bool.and_eq_true_iff.mp h).1

/-- A phase action is never a category_start yield. -/
lemma phaseOK_catStart {a : Action} (h : phaseOK a = true) :
    Action.catStart? a = none :=
  Option.isNone_iff_eq_none.mp (Bool.and_eq_true_iff.mp h).2

/-- Every action of a merge step is a phase action. -/
lemma mergeGroupStep_phaseOK (o : Oracle) (cat : String) (g : List Nat)
    (cms : List MemoryRecord) :
    ∀ a ∈ (mergeGroupStep o cat g cms).1, phaseOK a = true := by
  intro a ha
  simp only [mergeGroupStep] at ha
  split at ha
  · simp at ha
  · split at ha
    · simp at ha
    · rcases List.mem_append.mp ha with h1 | h2
      · rcases List.mem_append.mp h1 with h3 | h4
        · rw [List.mem_singleton.mp h3]; rfl
        · obtain ⟨t, _, rfl⟩ := List.mem_map.mp h4; rfl
      · simp only [List.mem_cons, List.mem_singleton] at h2
        rcases h2 with rfl | rfl | h5
        · rfl
        · rfl
        · simp at h5

/-- Every action of the merge loop is a phase action. -/
lemma mergeLoop_phaseOK (o : Oracle) (cat : String) :
    ∀ (gs : List (List Nat)) (cms : List MemoryRecord),
      ∀ a ∈ (mergeLoop o cat gs cms).1, phaseOK a = true := by
  intro gs
  induction gs with
  | nil => intro cms a ha; simp [mergeLoop] at ha
  | cons g gs ih =>
    intro cms a ha
    simp only [mergeLoop, List.mem_append] at ha
    rcases ha with h | h
    · exact mergeGroupStep_phaseOK o cat g cms a h
    · exact ih _ a h

/-- Every action of phase 1 is a phase action, and phase 1 never grows the
working list beyond removals. -/
lemma phase1_phaseOK (o : Oracle) (cat : String) (cms : List MemoryRecord) :
    ∀ a ∈ (phase1 o cat cms).1, phaseOK a = true := by
  intro a ha
  simp only [phase1] at ha
  split at ha
  · simp only [List.mem_cons, List.mem_singleton] at ha
    rcases ha with rfl | rfl | h <;> first | rfl | simp at h
  · simp only [List.mem_cons] at ha
    rcases ha with rfl | h
    · rfl
    · exact mergeLoop_phaseOK o cat _ cms a h

/-- Every action of a contradiction step is a phase action. -/
lemma contraStep_phaseOK (cont : Contra) (cms : List MemoryRecord) :
    ∀ a ∈ (contraStep cont cms).1, phaseOK a = true := by
  intro a ha
  simp only [contraStep] at ha
  split at ha
  · simp at ha
  · split at ha
    · simp at ha
    · split at ha
      · simp at ha
      · simp only [List.mem_cons, List.mem_singleton] at ha
        rcases ha with rfl | rfl | h <;> first | rfl | simp at h

/-- Every action of the contradiction loop is a phase action. -/
lemma contraLoop_phaseOK :
    ∀ (cs : List Contra) (cms : List MemoryRecord),
      ∀ a ∈ (contraLoop cs cms).1, phaseOK a = true := by
  intro cs
  induction cs with
  | nil => intro cms a ha; simp [contraLoop] at ha
  | cons c cs ih =>
    intro cms a ha
    simp only [contraLoop, List.mem_append] at ha
    rcases ha with h | h
    · exact contraStep_phaseOK c cms a h
    · exact ih _ a h

/-- Every action of phase 2 is a phase action. -/
lemma phase2_phaseOK (o : Oracle) (cms : List MemoryRecord) :
    ∀ a ∈ (phase2 o cms).1, phaseOK a = true := by
  intro a ha
  simp only [phase2] at ha
  split at ha
  · split at ha
    · simp only [List.mem_cons, List.mem_singleton] at ha
      rcases ha with rfl | rfl | h <;> first | rfl | simp at h
    · simp only [List.mem_cons] at ha
      rcases ha with rfl | h
      · rfl
      · exact contraLoop_phaseOK _ cms a h
  · simp at ha

/-- Every action of a shortening step is a phase action. -/
lemma shortenStep_phaseOK (o : Oracle) (cat : String) (m : MemoryRecord) :
    ∀ a ∈ shortenStep o cat m, phaseOK a = true := by
  intro a ha
  simp only [shortenStep] at ha
  split at ha
  · split at ha
    · simp only [List.mem_cons, List.mem_singleton] at ha
      rcases ha with rfl | rfl | h <;> first | rfl | simp at h
    · simp at ha
  · simp at ha

/-- Every action of phase 3 is a phase action. -/
lemma phase3_phaseOK (o : Oracle) (cat : String) (cms : List MemoryRecord) :
    ∀ a ∈ phase3 o cat cms, phaseOK a = true := by
  intro a ha
  simp only [phase3] at ha
  simp only [List.mem_cons, List.mem_flatten, List.mem_map] at ha
  rcases ha with rfl | ⟨l, ⟨m, _, rfl⟩, h⟩
  · rfl
  · exact shortenStep_phaseOK o cat m a h

/-- Every action of one category iteration is either the category_start
yield or a phase action; in particular it is never a terminal yield. -/
lemma processCategory_notTerminal (o : Oracle) (mems : List MemoryRecord)
    (cat : String) :
    ∀ a ∈ processCategory o mems cat, a.notTerminal = true := by
  intro a ha
  simp only [processCategory] at ha
  split at ha
  · simp at ha
  · simp only [List.mem_cons, List.mem_append] at ha
    rcases ha with rfl | (h | h) | h
    · rfl
    · exact phaseOK_notTerminal (phase1_phaseOK o cat _ a h)
    · exact phaseOK_notTerminal (phase2_phaseOK o _ a h)
    · exact phaseOK_notTerminal (phase3_phaseOK o cat _ a h)

/-- The category_start yields of one category iteration: none when the
category is empty, exactly one naming the category otherwise. -/
lemma processCategory_catStarts (o : Oracle) (mems : List MemoryRecord)
    (cat : String) :
    (processCategory o mems cat).filterMap Action.catStart?
      = if (mems.filter (fun m => m.category == cat)).isEmpty then [] else [cat] := by
  have hnone : ∀ l : List Action, (∀ a ∈ l, phaseOK a = true) →
      l.filterMap Action.catStart? = [] :=
    fun l h => List.filterMap_eq_nil_iff.mpr (fun a ha => phaseOK_catStart (h a ha))
  by_cases he : (mems.filter (fun m => m.category == cat)).isEmpty = true
  · simp [processCategory, he]
  · simp only [Bool.not_eq_true] at he
    simp only [processCategory, he, Bool.false_eq_true, if_false,
      List.filterMap_cons, List.filterMap_append]
    rw [hnone _ (phase1_phaseOK o cat _), hnone _ (phase2_phaseOK o _),
      hnone _ (phase3_phaseOK o cat _)]
    rfl

/-- Flattening a map that keeps or drops singletons is a filter. -/
lemma flatten_map_ite {α : Type} (l : List α) (p : α → Bool) :
    (l.map (fun c => if p c then ([] : List α) else [c])).flatten
      = l.filter (fun c => !p c) := by
  induction l with
  | nil => rfl
  | cons c cs ih => cases hc : p c <;> simp [hc, ih, List.filter_cons]

/-- C4 amended: a consolidation run starts exactly the non-empty categories
of the fixed enumeration attribute, goal, request, memory, in that source
order (skipping every category with zero matching records); the enumeration
does not contain note — the code's catch-all bucket is the literal memory —
and a record whose category lies outside the enumeration is visited by no
iteration of the loop. -/
theorem c4_amended (o : Oracle) (s : Store) :
    catStarts (runEvents o s)
      = categories.filter
          (fun c => !(s.records.filter (fun m => m.category == c)).isEmpty)
    ∧ categories = ["attribute", "goal", "request", "memory"] := by
  refine ⟨?_, rfl⟩
  show (List.filterMap Event.catStartName
    (List.filterMap Action.eventOf (compress_memories_stream o s.records))) = _
  rw [List.filterMap_filterMap]
  show (compress_memories_stream o s.records).filterMap Action.catStart? = _
  by_cases hrec : s.records.isEmpty = true
  · rw [List.isEmpty_iff.mp hrec]
    rfl
  · have hrec' : s.records.isEmpty = false := Bool.not_eq_true _ ▸ eq_false_of_ne_true hrec
    simp only [compress_memories_stream, hrec', Bool.false_eq_true, if_false]
    rw [List.filterMap_cons_none rfl, List.filterMap_append, List.filterMap_flatten,
      List.filterMap_cons_none rfl, List.filterMap_nil, List.append_nil, List.map_map]
    have h2 : List.map (List.filterMap Action.catStart? ∘ processCategory o s.records)
          categories
        = categories.map (fun cat =>
            if (s.records.filter (fun m => m.category == cat)).isEmpty then [] else [cat]) :=
      List.map_congr_left (fun cat _ => processCategory_catStarts o s.records cat)
    rw [h2, flatten_map_ite]

/-- A non-terminal yield carries neither the complete nor the end event. -/
lemma notTerminal_emit {e : Event} (h : Action.notTerminal (.emit e) = true) :
    e ≠ Event.complete ∧ e ≠ Event.endNoMemories := by
  cases e <;> simp_all [Action.notTerminal]

/-- No event produced inside the category loop is a terminal event. -/
lemma categoryLoop_events (o : Oracle) (mems : List MemoryRecord) :
    ∀ e ∈ ((categories.map (processCategory o mems)).flatten).filterMap Action.eventOf,
      e ≠ Event.complete ∧ e ≠ Event.endNoMemories := by
  intro e he
  obtain ⟨a, ha, hae⟩ := List.mem_filterMap.mp he
  obtain ⟨l, hl, hal⟩ := List.mem_flatten.mp ha
  obtain ⟨cat, _, rfl⟩ := List.mem_map.mp hl
  have hnt := processCategory_notTerminal o mems cat a hal
  cases a with
  | emit ev =>
    simp only [Action.eventOf, Option.some_inj] at hae
    subst hae
    exact notTerminal_emit hnt
  | mutate m => simp [Action.eventOf] at hae

/-- C7: every run's event sequence is a finite list (the embedding produces
a total list) whose last element is the single complete event; when the
store is empty at the start the run emits only the start event and the
single nothing-to-do end event, terminates at once and leaves the store
untouched (no category is visited, no mutation issued). -/
theorem c7_termination (o : Oracle) (s : Store) (now : Nat) :
    (s.records = [] →
      runEvents o s = [Event.start, Event.endNoMemories] ∧ runStore o s now = s)
    ∧ (s.records ≠ [] →
        (runEvents o s).getLast? = some Event.complete
        ∧ (runEvents o s).count Event.complete = 1
        ∧ Event.endNoMemories ∉ runEvents o s) := by
  constructor
  · intro h
    unfold runEvents runStore
    rw [h]
    exact ⟨rfl, rfl⟩
  · intro h
    have hrec' : s.records.isEmpty = false := by
      cases hr : s.records.isEmpty
      · rfl
      · exact absurd (List.isEmpty_iff.mp hr) h
    have hev : runEvents o s
        = Event.start ::
            (((categories.map (processCategory o s.records)).flatten).filterMap
                Action.eventOf ++ [Event.complete]) := by
      unfold runEvents
      simp only [compress_memories_stream, hrec', Bool.false_eq_true, if_false,
        List.filterMap_cons, List.filterMap_append, List.filterMap_nil, Action.eventOf]
    have key := categoryLoop_events o s.records
    have hnotin : Event.complete ∉
        ((categories.map (processCategory o s.records)).flatten).filterMap
          Action.eventOf := by
      intro hmem
      exact (key _ hmem).1 rfl
    have hnotin2 : Event.endNoMemories ∉
        ((categories.map (processCategory o s.records)).flatten).filterMap
          Action.eventOf := by
      intro hmem
      exact (key _ hmem).2 rfl
    rw [hev]
    refine ⟨?_, ?_, ?_⟩
    · rw [show Event.start ::
          (((categories.map (processCategory o s.records)).flatten).filterMap
              Action.eventOf ++ [Event.complete])
          = (Event.start ::
              ((categories.map (processCategory o s.records)).flatten).filterMap
                Action.eventOf) ++ [Event.complete] from rfl]
      exact List.getLast?_concat _
    · rw [List.count_cons, List.count_append]
      rw [List.count_eq_zero.mpr hnotin]
      decide
    · intro hmem
      rcases List.mem_cons.mp hmem with h1 | h1
      · exact absurd h1 (by decide)
      · rcases List.mem_append.mp h1 with h2 | h2
        · exact hnotin2 h2
        · exact absurd (List.mem_singleton.mp h2) (by decide)

/-- C7 witness: the theorem applied to the empty store (first hypothesis)
and to a concrete one-record store (second hypothesis). -/
theorem c7_termination_witness :
    (runEvents failOracle ⟨[], 5⟩ = [Event.start, Event.endNoMemories]
      ∧ runStore failOracle ⟨[], 5⟩ 0 = ⟨[], 5⟩)
    ∧ ((runEvents constShortenOracle ⟨[⟨1, "memory", "hi", 0⟩], 2⟩).getLast?
          = some Event.complete
        ∧ (runEvents constShortenOracle ⟨[⟨1, "memory", "hi", 0⟩], 2⟩).count
            Event.complete = 1
        ∧ Event.endNoMemories ∉ runEvents constShortenOracle ⟨[⟨1, "memory", "hi", 0⟩], 2⟩) :=
  ⟨(c7_termination failOracle ⟨[], 5⟩ 0).1 rfl,
   (c7_termination constShortenOracle ⟨[⟨1, "memory", "hi", 0⟩], 2⟩ 0).2 (by decide)⟩

/-- Replaying an appended trace replays the two parts in order. -/
lemma applyTrace_append (now : Nat) (t1 t2 : List Action) :
    ∀ s : Store, applyTrace now s (t1 ++ t2) = applyTrace now (applyTrace now s t1) t2 := by
  induction t1 with
  | nil => intro s; rfl
  | cons a t1 ih =>
    intro s
    cases a with
    | emit e => exact ih s
    | mutate m => exact ih (applyMutation s now m)

/-- A trace without mutations leaves the store unchanged. -/
lemma applyTrace_no_mutate (now : Nat) :
    ∀ (tr : List Action) (s : Store), (∀ a ∈ tr, a.isMutate = false) →
      applyTrace now s tr = s := by
  intro tr
  induction tr with
  | nil => intro s _; rfl
  | cons a tr ih =>
    intro s h
    cases a with
    | emit e => exact ih s (fun a ha => h a (List.mem_cons_of_mem _ ha))
    | mutate m => exact absurd (h _ (List.mem_cons_self _ _)) (by simp [Action.isMutate])

/-- When every similarity response is empty, phase 1 only emits the process
and info events and keeps the working list. -/
lemma phase1_all_fail (o : Oracle) (cat : String) (cms : List MemoryRecord)
    (h1 : ∀ inp, o.similarity inp = []) :
    phase1 o cat cms
      = ([Action.emit Event.processSimilar, Action.emit Event.infoNoSimilar], cms) := by
  unfold phase1
  rw [h1]
  rfl

/-- When every contradiction response is empty, phase 2 only emits events
(or nothing, below two records) and keeps the working list. -/
lemma phase2_all_fail (o : Oracle) (cms : List MemoryRecord)
    (h2 : ∀ inp, o.contradiction inp = []) :
    phase2 o cms
      = (if 2 ≤ cms.length then
          [Action.emit Event.processContradiction, Action.emit Event.infoNoContradiction]
        else [], cms) := by
  unfold phase2
  split
  · rw [h2]
    rfl
  · rfl

/-- A non-accepted rewrite produces no action at all. -/
lemma shortenStep_skip (o : Oracle) (cat : String) (m : MemoryRecord)
    (h : ¬((strip (o.shorten m.content)).length < m.content.length
      ∧ strip (o.shorten m.content) ≠ m.content)) :
    shortenStep o cat m = [] := by
  simp [shortenStep, h]

/-- When no rewrite of the working list is accepted, phase 3 only emits the
process event. -/
lemma phase3_all_skip (o : Oracle) (cat : String) (cms : List MemoryRecord)
    (h : ∀ m ∈ cms, shortenStep o cat m = []) :
    phase3 o cat cms = [Action.emit Event.processShorten] := by
  have hfl : (cms.map (shortenStep o cat)).flatten = [] :=
    List.flatten_eq_nil_iff.mpr (by
      intro l hl
      obtain ⟨m, hm, rfl⟩ := List.mem_map.mp hl
      exact h m hm)
  unfold phase3
  rw [hfl]

/-- When the oracle proposes nothing actionable, one category iteration
issues no store mutation. -/
lemma processCategory_no_mutate (o : Oracle) (mems : List MemoryRecord) (cat : String)
    (h1 : ∀ inp, o.similarity inp = [])
    (h2 : ∀ inp, o.contradiction inp = [])
    (h3 : ∀ m ∈ mems,
      ¬((strip (o.shorten m.content)).length < m.content.length
        ∧ strip (o.shorten m.content) ≠ m.content)) :
    ∀ a ∈ processCategory o mems cat, a.isMutate = false := by
  intro a ha
  simp only [processCategory] at ha
  split at ha
  · simp at ha
  · simp only [phase1_all_fail o cat _ h1, phase2_all_fail o _ h2] at ha
    have hskip : ∀ m ∈ mems.filter (fun m => m.category == cat),
        shortenStep o cat m = [] :=
      fun m hm => shortenStep_skip o cat m (h3 m (List.mem_filter.mp hm).1)
    rw [phase3_all_skip o cat _ hskip] at ha
    rcases List.mem_cons.mp ha with rfl | ha2
    · rfl
    · rcases List.mem_append.mp ha2 with h4 | h4
      · rcases List.mem_append.mp h4 with h5 | h5
        · rcases List.mem_cons.mp h5 with rfl | h6
          · rfl
          · rcases List.mem_cons.mp h6 with rfl | h7
            · rfl
            · simp at h7
        · split at h5
          · rcases List.mem_cons.mp h5 with rfl | h6
            · rfl
            · rcases List.mem_cons.mp h6 with rfl | h7
              · rfl
              · simp at h7
          · simp at h5
      · rw [List.mem_singleton.mp h4]
        rfl

/-- C8 amended: a converged store is a fixed point only in the conditional
sense — when the deterministic stub proposes nothing actionable on the
current store (no similarity groups, no contradictions, and no rewrite
passing the acceptance check for any stored content), a run leaves the
store unchanged, so a second run changes nothing; for other deterministic
stubs a second run can perform further mutations (see the counterexample,
where shortening keeps making progress run after run). -/
theorem c8_amended (o : Oracle) (s : Store) (now : Nat)
    (h1 : ∀ inp, o.similarity inp = [])
    (h2 : ∀ inp, o.contradiction inp = [])
    (h3 : ∀ m ∈ s.records,
      ¬((strip (o.shorten m.content)).length < m.content.length
        ∧ strip (o.shorten m.content) ≠ m.content)) :
    runStore o s now = s := by
  unfold runStore
  apply applyTrace_no_mutate
  intro a ha
  rcases List.mem_cons.mp ha with rfl | ha2
  · rfl
  · by_cases hrec : s.records.isEmpty = true
    · simp only [hrec, if_true, List.mem_singleton] at ha2
      rw [ha2]
      rfl
    · have hrec' : s.records.isEmpty = false :=
        Bool.not_eq_true _ ▸ eq_false_of_ne_true hrec
      simp only [hrec', Bool.false_eq_true, if_false, List.mem_append,
        List.mem_singleton] at ha2
      rcases ha2 with h4 | rfl
      · obtain ⟨l, hl, hal⟩ := List.mem_flatten.mp h4
        obtain ⟨cat, _, rfl⟩ := List.mem_map.mp hl
        exact processCategory_no_mutate o s.records cat h1 h2 h3 a hal
      · rfl

/-- C8 amended witness: a store whose single record admits no accepted
rewrite is untouched by a run with an oracle that proposes nothing. -/
theorem c8_amended_witness :
    runStore ⟨fun _ => [], fun _ => "", fun _ => [], fun _ => "aaaaa"⟩
        ⟨[⟨1, "memory", "hello", 0⟩], 2⟩ 3
      = ⟨[⟨1, "memory", "hello", 0⟩], 2⟩ :=
  c8_amended ⟨fun _ => [], fun _ => "", fun _ => [], fun _ => "aaaaa"⟩
    ⟨[⟨1, "memory", "hello", 0⟩], 2⟩ 3 (fun _ => rfl) (fun _ => rfl) (by decide)

lemma shortenStep_eq (o : Oracle) (cat : String) (m : MemoryRecord) :
    shortenStep o cat m
      = if 15 < m.content.length
            ∧ (strip (o.shorten m.content)).length < m.content.length
            ∧ strip (o.shorten m.content) ≠ m.content then
          [Action.emit (Event.actionShorten m.content (strip (o.shorten m.content))),
           Action.mutate (Mutation.update m.id (strip (o.shorten m.content)) cat)]
        else [] := by
  simp only [shortenStep]
  by_cases h1 : 15 < m.content.length
  · by_cases h2 : (strip (o.shorten m.content)).length < m.content.length
        ∧ strip (o.shorten m.content) ≠ m.content
    · rw [if_pos h1, if_pos h2, if_pos ⟨h1, h2⟩]
    · rw [if_pos h1, if_neg h2, if_neg (fun hh => h2 hh.2)]
  · rw [if_neg h1, if_neg (fun hh => h1 hh.1)]

lemma mergeGroupStep_singleton (o : Oracle) (cat : String) (g : List Nat)
    (m : MemoryRecord) : mergeGroupStep o cat g [m] = ([], [m]) := by
  simp only [mergeGroupStep]
  split
  · rfl
  · split
    · rfl
    · next h2 => exact absurd (Nat.lt_succ_of_le (List.length_filter_le _ [m])) h2

lemma mergeLoop_singleton (o : Oracle) (cat : String) (m : MemoryRecord) :
    ∀ gs, mergeLoop o cat gs [m] = ([], [m]) := by
  intro gs
  induction gs with
  | nil => rfl
  | cons g gs ih => simp [mergeLoop, mergeGroupStep_singleton, ih]

lemma phase1_singleton_eq (o : Oracle) (cat : String) (m : MemoryRecord) :
    phase1 o cat [m]
      = ((if (o.similarity [(m.id, m.content)]).isEmpty then
            [Action.emit Event.processSimilar, Action.emit Event.infoNoSimilar]
          else [Action.emit Event.processSimilar]), [m]) := by
  have hmap : List.map (fun x : MemoryRecord => (x.id, x.content)) [m]
      = [(m.id, m.content)] := rfl
  simp only [phase1, hmap]
  split
  · rfl
  · rw [mergeLoop_singleton]

lemma run_singleton (o : Oracle) (i : Nat) (c : String) (ca n now : Nat) :
    runStore o ⟨[⟨i, "memory", c, ca⟩], n⟩ now
      = ⟨[if 15 < c.length ∧ (strip (o.shorten c)).length < c.length
              ∧ strip (o.shorten c) ≠ c
          then ⟨i, "memory", strip (o.shorten c), ca⟩
          else ⟨i, "memory", c, ca⟩], n⟩ := by
  unfold runStore
  have hfil : List.filter (fun m => m.category == "memory")
      [(⟨i, "memory", c, ca⟩ : MemoryRecord)] = [⟨i, "memory", c, ca⟩] := rfl
  have hproc : processCategory o [⟨i, "memory", c, ca⟩] "memory"
      = Action.emit (Event.categoryStart "memory" 1)
          :: (((if (o.similarity [(i, c)]).isEmpty then
                  [Action.emit Event.processSimilar, Action.emit Event.infoNoSimilar]
                else [Action.emit Event.processSimilar]) ++ [])
              ++ (Action.emit Event.processShorten
                  :: (shortenStep o "memory" ⟨i, "memory", c, ca⟩ ++ []))) := by
    simp only [processCategory, hfil, List.isEmpty_cons, Bool.false_eq_true, if_false]
    rw [phase1_singleton_eq]
    rfl
  have htr : compress_memories_stream o [⟨i, "memory", c, ca⟩]
      = Action.emit Event.start ::
          ((processCategory o [⟨i, "memory", c, ca⟩] "memory" ++ [])
            ++ [Action.emit Event.complete]) := rfl
  rw [htr, hproc]
  simp only [List.append_nil]
  show applyTrace now ⟨[⟨i, "memory", c, ca⟩], n⟩
      (((if (o.similarity [(i, c)]).isEmpty then
          [Action.emit Event.processSimilar, Action.emit Event.infoNoSimilar]
        else [Action.emit Event.processSimilar])
        ++ (Action.emit Event.processShorten
            :: shortenStep o "memory" ⟨i, "memory", c, ca⟩))
        ++ [Action.emit Event.complete]) = _
  rw [applyTrace_append, applyTrace_append]
  have hpre : applyTrace now ⟨[⟨i, "memory", c, ca⟩], n⟩
      (if (o.similarity [(i, c)]).isEmpty then
        [Action.emit Event.processSimilar, Action.emit Event.infoNoSimilar]
      else [Action.emit Event.processSimilar]) = ⟨[⟨i, "memory", c, ca⟩], n⟩ := by
    split <;> rfl
  rw [hpre]
  show applyTrace now (applyTrace now ⟨[⟨i, "memory", c, ca⟩], n⟩
      (shortenStep o "memory" ⟨i, "memory", c, ca⟩)) [Action.emit Event.complete] = _
  rw [shortenStep_eq]
  dsimp only
  split
  · show applyTrace now (update_memory ⟨[⟨i, "memory", c, ca⟩], n⟩ i
        (strip (o.shorten c)) "memory") [Action.emit Event.complete] = _
    simp [update_memory, applyTrace]
  · rfl

/-- C6: the shortening phase consults the oracle for a record exactly when
its content exceeds 15 characters (for shorter records the step is empty
whatever the oracle would answer), and the stripped reply is accepted only
when it is strictly shorter than and different from the original; on
acceptance the record is updated in place — same id, same category, same
created_at, new content — and otherwise the record stays byte-for-byte
unchanged and the step emits no event and issues no mutation.  The first
conjunct characterises the per-record step; the second runs the whole
pipeline on a one-record store and shows the resulting record. -/
theorem c6_shortening (o : Oracle) :
    (∀ (cat : String) (m : MemoryRecord),
        shortenStep o cat m
          = if 15 < m.content.length
                ∧ (strip (o.shorten m.content)).length < m.content.length
                ∧ strip (o.shorten m.content) ≠ m.content then
              [Action.emit (Event.actionShorten m.content (strip (o.shorten m.content))),
               Action.mutate (Mutation.update m.id (strip (o.shorten m.content)) cat)]
            else [])
    ∧ (∀ (i : Nat) (c : String) (ca n now : Nat),
        runStore o ⟨[⟨i, "memory", c, ca⟩], n⟩ now
          = ⟨[if 15 < c.length ∧ (strip (o.shorten c)).length < c.length
                  ∧ strip (o.shorten c) ≠ c
              then ⟨i, "memory", strip (o.shorten c), ca⟩
              else ⟨i, "memory", c, ca⟩], n⟩) :=
  ⟨fun cat m => shortenStep_eq o cat m, fun i c ca n now => run_singleton o i c ca n now⟩


end MemAssist
